import Mathlib

/-!
Shallow embedding of the `valid` Go package (raywall/json-schema-validation,
file `valid.go`) and proofs about its validation-result model, custom
error-message overlay, HTTP middleware dispatch and multi-validator registry.

Modelling conventions:
* Go `map[string]T` values are modelled as association lists
  `List (String × T)` with unique keys; `assocLookup` is map indexing,
  `assocInsert` is map assignment (replace-or-append), and deletion is a
  filter.  Go map iteration order is unspecified; we iterate in list order,
  which fixes one admissible order and leaves the resulting map (as a
  key-value relation) unchanged.
* Parsed JSON values (`interface{}` after `json.Unmarshal`) are the
  inductive `Json` below.  JSON numbers are abstracted as `Int`; no claim
  depends on numeric payloads.
* The two external collaborators — the JSON parser (`encoding/json`) and
  the Schema Evaluation Engine (`gojsonschema`) — are parameters: a parse
  function returning `Except` and an engine function returning the ordered
  list of raw violations, mirroring the Go signatures
  `json.Unmarshal` and `gojsonschema.Validate`.
* Byte slices are modelled as `String` (the claims only concern textual
  JSON payloads); `len(b) == 0` becomes `s = ""`.
-/

namespace Valid

/-- A parsed JSON value (`interface{}` holding a decoded JSON document). -/
inductive Json where
  | null : Json
  | bool (b : Bool) : Json
  | num (n : Int) : Json
  | str (s : String) : Json
  | arr (elems : List Json) : Json
  | obj (fields : List (String × Json)) : Json

/-- Go map indexing `m[k]` on the association-list model (first match;
keys are unique by construction). -/
def assocLookup {α : Type} : List (String × α) → String → Option α
  | [], _ => none
  | (k', v) :: rest, k => if k' = k then some v else assocLookup rest k

/-- Go map assignment `m[k] = v`: replace the entry if the key is present,
otherwise append it. -/
def assocInsert {α : Type} : List (String × α) → String → α → List (String × α)
  | [], k, v => [(k, v)]
  | (k', v') :: rest, k, v =>
      if k' = k then (k, v) :: rest else (k', v') :: assocInsert rest k v

/-- In-place update of the value stored at key `k` (no-op if absent);
models mutating a nested Go map obtained from an outer map. -/
def assocUpdate {α : Type} : List (String × α) → String → (α → α) → List (String × α)
  | [], _, _ => []
  | (k', v) :: rest, k, f =>
      if k' = k then (k', f v) :: rest else (k', v) :: assocUpdate rest k f

/-- `ValidationError` from valid.go: one per-field diagnostic.
`value` is `Option` because the Go code only assigns `Value` when
`err.Value() != nil`. -/
structure ValidationError where
  field : String
  message : String
  value : Option Json
  constraint : String
  context : String

/-- `ValidationResult` from valid.go. -/
structure ValidationResult where
  valid : Bool
  errors : List ValidationError

/-- `ErrorResponse` from valid.go: the middleware's default rejection payload. -/
structure ErrorResponse where
  error : String
  details : List ValidationError

/-- `Validator` from valid.go.  `schemaSource` stands for the
`gojsonschema.JSONLoader` over the original schema bytes; `customErrors`
is the extracted `map[string]map[string]string`. -/
structure Validator where
  schemaSource : String
  customErrors : List (String × List (String × String))

/-- One raw violation from the Schema Evaluation Engine
(`gojsonschema.ResultError`): `field` is `err.Field()`, `etype` is
`err.Type()`, `description` is `err.Description()`, `value` is
`err.Value()` (`none` for nil), `context` is `err.Context().String()`. -/
structure RawViolation where
  field : String
  etype : String
  description : String
  value : Option Json
  context : String

/-- `unicode.IsSpace` restricted to the Latin-1 range (all the whitespace
code points an empty-or-whitespace-only claim exercises):
space, tab, newline, vertical tab, form feed, carriage return, NEL, NBSP. -/
def goIsSpace (c : Char) : Bool :=
  c = ' ' || c = Char.ofNat 9 || c = Char.ofNat 10 || c = Char.ofNat 11 ||
  c = Char.ofNat 12 || c = Char.ofNat 13 || c = Char.ofNat 0x85 || c = Char.ofNat 0xA0

/-- `strings.TrimSpace`: drop leading and trailing whitespace. -/
def goTrimSpace (s : String) : String :=
  String.mk (((s.data.dropWhile goIsSpace).reverse.dropWhile goIsSpace).reverse)

/-- `strings.TrimPrefix(s, pre)`: remove `pre` when it is a leading
prefix of `s`, otherwise return `s` unchanged. -/
def goTrimPre (s pre : String) : String :=
  if pre.isPrefixOf s then String.mk (s.data.drop pre.data.length) else s

/-- `strings.Split(s, ".")` on the character list: split at every dot,
always returning at least one (possibly empty) part. -/
def goSplitList : List Char → List (List Char)
  | [] => [[]]
  | c :: cs =>
      if c = '.' then [] :: goSplitList cs
      else
        match goSplitList cs with
        | [] => [[c]]
        | r :: rs => (c :: r) :: rs

/-- `strings.Split(field, ".")` as used in `getCustomErrorMessage`. -/
def goSplitDot (s : String) : List String :=
  (goSplitList s.data).map (fun cs => String.mk cs)

/-- `fieldPath[0]` in `getCustomErrorMessage`: the first segment of a
dot-delimited field path. -/
def goBaseField (field : String) : String :=
  (goSplitDot field).headD ""

/-- `extractErrorMessages` from valid.go: walks the parsed schema object
looking for custom error messages.  Faithful to the source: it only
descends into `schema["items"]` — per-property `errorMessage` blocks are
read from `items.properties`, and required-field messages from
`items.errorMessage.required`.  A schema without an `items` object yields
the empty table. -/
def extractErrorMessages (schema : List (String × Json)) :
    List (String × List (String × String)) :=
  match assocLookup schema "items" with
  | some (Json.obj items) =>
      let fromProps :=
        match assocLookup items "properties" with
        | some (Json.obj props) =>
            props.foldl
              (fun acc fp =>
                match fp.2 with
                | Json.obj propMap =>
                    match assocLookup propMap "errorMessage" with
                    | some (Json.obj errMsg) =>
                        let fieldErrors :=
                          errMsg.foldl
                            (fun fe km =>
                              match km.2 with
                              | Json.str msgStr => assocInsert fe km.1 msgStr
                              | _ => fe)
                            []
                        assocInsert acc fp.1 fieldErrors
                    | _ => acc
                | _ => acc)
              []
        | _ => []
      match assocLookup items "errorMessage" with
      | some (Json.obj errMsg) =>
          match assocLookup errMsg "required" with
          | some (Json.obj requiredMsgs) =>
              requiredMsgs.foldl
                (fun acc fm =>
                  match fm.2 with
                  | Json.str msgStr =>
                      let ensured :=
                        if (assocLookup acc fm.1).isSome then acc
                        else assocInsert acc fm.1 []
                      assocUpdate ensured fm.1 (fun fe => assocInsert fe "required" msgStr)
                  | _ => acc)
                fromProps
          | _ => fromProps
      | _ => fromProps
  | _ => []

/-- `NewFromBytes` from valid.go.  `parseObj` models
`json.Unmarshal(schemaBytes, &schemaObj)` into a `map[string]interface{}`
(an external collaborator): it fails exactly when the bytes are not a
JSON object. -/
def NewFromBytes (parseObj : String → Except String (List (String × Json)))
    (schemaBytes : String) : Except String Validator :=
  if schemaBytes = "" then Except.error "schema bytes não podem estar vazios"
  else
    match parseObj schemaBytes with
    | Except.error e => Except.error ("schema JSON inválido: " ++ e)
    | Except.ok schemaObj =>
        Except.ok { schemaSource := schemaBytes
                    customErrors := extractErrorMessages schemaObj }

/-- `NewFromString` from valid.go: rejects empty-after-trim input, then
delegates to `NewFromBytes` over the string's bytes. -/
def NewFromString (parseObj : String → Except String (List (String × Json)))
    (schemaJSON : String) : Except String Validator :=
  if goTrimSpace schemaJSON = "" then Except.error "schema não pode estar vazio"
  else NewFromBytes parseObj schemaJSON

/-- `getCustomErrorMessage` from valid.go: look the (first segment of the)
field path up in the overlay table; prefer the exact constraint keyword,
then the wildcard entry, then the engine's default description. -/
def getCustomErrorMessage (v : Validator) (field : String) (err : RawViolation) : String :=
  let baseField := goBaseField field
  match assocLookup v.customErrors baseField with
  | some fieldMessages =>
      match assocLookup fieldMessages err.etype with
      | some msg => msg
      | none =>
          match assocLookup fieldMessages "_" with
          | some msg => msg
          | none => err.description
  | none => err.description

/-- The body of the `for` loop in `buildValidationResult`: normalize the
raw field path and assemble one public diagnostic. -/
def toValidationError (v : Validator) (err : RawViolation) : ValidationError :=
  let field0 := goTrimPre err.field "(root)."
  let field := if field0 = "(root)" then "" else field0
  { field := field
    message := getCustomErrorMessage v field err
    value := err.value
    constraint := err.etype
    context := err.context }

/-- `buildValidationResult` from valid.go: `result.Valid()` in
gojsonschema holds iff the engine reported zero violations; diagnostics
are assembled in engine emission order. -/
def buildValidationResult (v : Validator) (engineErrors : List RawViolation) :
    ValidationResult :=
  if engineErrors.isEmpty then
    { valid := true, errors := [] }
  else
    { valid := false, errors := engineErrors.map (toValidationError v) }

/-- `ValidateBytes` from valid.go.  `parse` models
`json.Unmarshal(jsonData, &jsonObj)` into `interface{}` (success/failure
with the parser's error text); `engine` models
`gojsonschema.Validate(v.schema, document)` applied to this validator's
schema (operational failure, or the ordered raw violations). -/
def ValidateBytes (v : Validator) (parse : String → Except String Unit)
    (engine : String → Except String (List RawViolation))
    (jsonData : String) : Except String ValidationResult :=
  if jsonData = "" then Except.error "dados JSON não podem estar vazios"
  else
    match parse jsonData with
    | Except.error e =>
        Except.ok
          { valid := false
            errors := [{ field := "root"
                         message := "JSON inválido: " ++ e
                         value := none
                         constraint := "format"
                         context := "" }] }
    | Except.ok _ =>
        match engine jsonData with
        | Except.error e => Except.error ("erro durante validação do schema: " ++ e)
        | Except.ok result => Except.ok (buildValidationResult v result)

/-- `ValidateString` from valid.go: `ValidateBytes` over the string's bytes. -/
def ValidateString (v : Validator) (parse : String → Except String Unit)
    (engine : String → Except String (List RawViolation))
    (jsonString : String) : Except String ValidationResult :=
  ValidateBytes v parse engine jsonString

/-- An `io.ReadCloser` request body: the bytes the stream yields and how
many have already been consumed.  `readAllStream` models `io.ReadAll`:
it returns the unconsumed remainder and exhausts the stream. -/
structure BodyStream where
  contents : String
  pos : Nat

/-- `io.ReadAll(r.Body)`: yield the unread remainder, leaving the stream
exhausted. -/
def readAllStream (b : BodyStream) : String × BodyStream :=
  (String.mk (b.contents.data.drop b.pos), { b with pos := b.contents.data.length })

/-- An `*http.Request` as the validator sees it: its method and its body
handle (`none` models a nil `r.Body`). -/
structure GoRequest where
  method : String
  body : Option BodyStream

/-- `ValidateRequest` from valid.go: nil-request and nil-body checks, read
the whole body, re-attach a fresh stream over the same bytes
(`r.Body = io.NopCloser(strings.NewReader(string(body)))`), then validate
the bytes.  Returns the request as it stands after the call together with
the outcome.  (`io.ReadAll` over an in-memory reader cannot fail, so a
read error is not modelled.) -/
def ValidateRequest (v : Validator) (parse : String → Except String Unit)
    (engine : String → Except String (List RawViolation))
    (r : Option GoRequest) : Option GoRequest × Except String ValidationResult :=
  match r with
  | none => (none, Except.error "requisição não pode ser nil")
  | some req =>
      match req.body with
      | none => (some req, Except.error "corpo da requisição não pode ser nil")
      | some stream =>
          let bodyBytes := (readAllStream stream).1
          let req' : GoRequest := { req with body := some { contents := bodyBytes, pos := 0 } }
          (some req', ValidateBytes v parse engine bodyBytes)

/-- `defaultErrorHandler` from valid.go: HTTP 400 with the structured
`ErrorResponse` payload carrying the full diagnostic list. -/
def defaultErrorHandler (result : ValidationResult) : Nat × ErrorResponse :=
  (400, { error := "Dados de entrada inválidos", details := result.errors })

/-- The outcome of one middleware invocation: the downstream handler ran,
`http.Error` answered with a server-error status and message, or the
(configured or default) error responder was invoked with the failed
result. -/
inductive MiddlewareOutcome where
  | passThrough : MiddlewareOutcome
  | errored (status : Nat) (message : String) : MiddlewareOutcome
  | rejected (result : ValidationResult) : MiddlewareOutcome

/-- The default-substitution step at the top of `MiddlewareWithConfig`:
an empty (or nil) `SkipMethods` list is replaced by the default
exemption set. -/
def effectiveSkipMethods (skipMethods : List String) : List String :=
  if skipMethods.isEmpty then ["GET", "DELETE", "HEAD", "OPTIONS"] else skipMethods

/-- The request-handling closure returned by `MiddlewareWithConfig`,
as a function of the request method and of the outcome of
`v.ValidateRequest(r)` (the `val` argument).  `skipMethods` is
`config.SkipMethods`; the configured error responder is abstracted into
the `rejected` outcome (the default responder is `defaultErrorHandler`). -/
def MiddlewareWithConfig (skipMethods : List String) (method : String)
    (val : Except String ValidationResult) : MiddlewareOutcome :=
  let skip := effectiveSkipMethods skipMethods
  if skip.contains method then MiddlewareOutcome.passThrough
  else
    match val with
    | Except.error e =>
        MiddlewareOutcome.errored 500 ("Erro interno de validação: " ++ e)
    | Except.ok validation =>
        if !validation.valid then MiddlewareOutcome.rejected validation
        else MiddlewareOutcome.passThrough

/-- `MultiValidator` from valid.go: a named collection of validators
(`map[string]*Validator`). -/
structure MultiValidator where
  validators : List (String × Validator)

/-- `NewMultiValidator`: the empty registry. -/
def NewMultiValidator : MultiValidator := { validators := [] }

/-- `MultiValidator.Add`: map assignment, overwriting any prior entry. -/
def MultiValidator.Add (mv : MultiValidator) (key : String) (validator : Validator) :
    MultiValidator :=
  { validators := assocInsert mv.validators key validator }

/-- `MultiValidator.Get`: Go's two-valued map read `(validator, exists)`;
the validator is `none` (nil) when the key is absent. -/
def MultiValidator.Get (mv : MultiValidator) (key : String) : Option Validator × Bool :=
  match assocLookup mv.validators key with
  | some v => (some v, true)
  | none => (none, false)

/-- `MultiValidator.Remove`: `delete(mv.validators, key)`. -/
def MultiValidator.Remove (mv : MultiValidator) (key : String) : MultiValidator :=
  { validators := mv.validators.filter (fun p => !(p.1 == key)) }

/-- `MultiValidator.Keys`. -/
def MultiValidator.Keys (mv : MultiValidator) : List String :=
  mv.validators.map (fun p => p.1)

/-- `MultiValidator.Count`. -/
def MultiValidator.Count (mv : MultiValidator) : Nat :=
  mv.validators.length

/-! ### Concrete fixtures

Instantiations of the external collaborators (parser, engine) and small
concrete validators/violations used to evaluate the definitions on the
inputs the spec's scenarios name.  Each parse fixture reproduces what
`encoding/json` does on the specific input it is applied to. -/

/-- A validator with an empty overlay table. -/
def vA : Validator := { schemaSource := "schemaA", customErrors := [] }

/-- A second validator, distinct from `vA`. -/
def vB : Validator := { schemaSource := "schemaB", customErrors := [] }

/-- A validator whose overlay table has both a per-constraint and a
wildcard entry for the field `email`. -/
def vOverlay : Validator :=
  { schemaSource := "schemaOverlay"
    customErrors := [("email", [("format", "bad email"), ("_", "email is wrong")])] }

/-- A validator whose overlay table is keyed by a full nested path —
the kind of entry `getCustomErrorMessage` can never consult. -/
def vNested : Validator :=
  { schemaSource := "schemaNested"
    customErrors := [("address.zipCode", [("pattern", "bad zip")])] }

/-- A parser that accepts its input (models `json.Unmarshal` on
well-formed JSON). -/
def parseOkU : String → Except String Unit := fun _ => Except.ok ()

/-- An engine run that reports zero violations. -/
def engineOk : String → Except String (List RawViolation) := fun _ => Except.ok []

/-- `json.Unmarshal` applied to the bytes `not json`: it fails with an
invalid-character error (the apostrophes of the real Go message are
elided). -/
def parseFailNotJson : String → Except String Unit :=
  fun _ => Except.error "invalid character o in literal null"

/-- `json.Unmarshal` applied to whitespace-only bytes: it fails with
`unexpected end of JSON input`. -/
def parseFailEOF : String → Except String Unit :=
  fun _ => Except.error "unexpected end of JSON input"

/-- `json.Unmarshal` into `map[string]interface{}` applied to
whitespace-only schema bytes: it fails with
`unexpected end of JSON input`. -/
def parseObjFail : String → Except String (List (String × Json)) :=
  fun _ => Except.error "unexpected end of JSON input"

/-- The README's custom-message schema: an object schema whose top-level
`properties.email` carries a sibling `errorMessage` block. -/
def schemaTopLevelEM : List (String × Json) :=
  [("type", Json.str "object"),
   ("properties", Json.obj
      [("email", Json.obj
          [("type", Json.str "string"),
           ("format", Json.str "email"),
           ("errorMessage", Json.obj [("format", Json.str "bad email")])])]),
   ("required", Json.arr [Json.str "email"])]

/-- `json.Unmarshal` into `map[string]interface{}` applied to the bytes of
`schemaTopLevelEM`: succeeds with that object. -/
def parseObjSchemaTopLevel : String → Except String (List (String × Json)) :=
  fun _ => Except.ok schemaTopLevelEM

/-- An engine violation of the `format` constraint on the `email` field
(the engine default description stands in for gojsonschema's
`Does not match format email`). -/
def emailViolation : RawViolation :=
  { field := "email"
    etype := "format"
    description := "does not match format email"
    value := some (Json.str "not-an-email")
    context := "(root).email" }

/-- An engine violation of `minLength` on the `email` field. -/
def emailLenViolation : RawViolation :=
  { field := "email"
    etype := "minLength"
    description := "string length must be greater than or equal to 5"
    value := some (Json.str "a@b")
    context := "(root).email" }

/-- An engine violation of `pattern` on the nested field
`address.zipCode`. -/
def zipViolation : RawViolation :=
  { field := "address.zipCode"
    etype := "pattern"
    description := "does not match pattern"
    value := some (Json.str "123")
    context := "(root).address.zipCode" }

/-! ### Helper lemmas -/

/-- Structure eta for strings: rebuilding a string from its character
list gives the string back. -/
theorem string_mk_data (s : String) : String.mk s.data = s := rfl

/-- Map assignment followed by a read of the same key yields the assigned
value (Go map semantics on the association-list model). -/
theorem assocLookup_insert {α : Type} (m : List (String × α)) (k : String) (v : α) :
    assocLookup (assocInsert m k v) k = some v := by
  induction m with
  | nil => simp [assocInsert, assocLookup]
  | cons p rest ih =>
      obtain ⟨k', v'⟩ := p
      by_cases h : k' = k
      · simp [assocInsert, h, assocLookup]
      · simp [assocInsert, h, assocLookup, ih]

/-- Deleting an absent key from a Go map leaves it unchanged. -/
theorem filter_ne_of_lookup_none {α : Type} (m : List (String × α)) (k : String)
    (h : assocLookup m k = none) : m.filter (fun p => !(p.1 == k)) = m := by
  induction m with
  | nil => rfl
  | cons p rest ih =>
      obtain ⟨k', v⟩ := p
      simp only [assocLookup] at h
      by_cases hk : k' = k
      · rw [if_pos hk] at h
        exact absurd h (by simp)
      · rw [if_neg hk] at h
        simp [List.filter_cons, hk, ih h]

/-- `strings.Split` never returns an empty list of parts. -/
theorem goSplitList_ne_nil (cs : List Char) : goSplitList cs ≠ [] := by
  induction cs with
  | nil => simp [goSplitList]
  | cons c cs ih =>
      by_cases hc : c = '.'
      · simp [goSplitList, hc]
      · simp only [goSplitList, if_neg hc]
        cases hr : goSplitList cs with
        | nil => simp
        | cons r rs => simp

/-- No part produced by splitting on `'.'` contains a `'.'`. -/
theorem goSplitList_no_dot (cs : List Char) :
    ∀ p ∈ goSplitList cs, '.' ∉ p := by
  induction cs with
  | nil =>
      intro p hp
      simp [goSplitList] at hp
      subst hp
      simp
  | cons c cs ih =>
      intro p hp
      simp only [goSplitList] at hp
      by_cases hc : c = '.'
      · rw [if_pos hc] at hp
        rcases List.mem_cons.mp hp with h | h
        · subst h; simp
        · exact ih p h
      · rw [if_neg hc] at hp
        cases hr : goSplitList cs with
        | nil => exact absurd hr (goSplitList_ne_nil cs)
        | cons r rs =>
            rw [hr] at hp
            rcases List.mem_cons.mp hp with h | h
            · subst h
              intro hmem
              rcases List.mem_cons.mp hmem with h2 | h2
              · exact hc h2.symm
              · exact ih r (hr ▸ List.mem_cons_self r rs) h2
            · exact ih p (hr ▸ List.mem_cons.mpr (Or.inr h))

/-- Splitting a dot-free character list on `'.'` yields a single part. -/
theorem goSplitList_of_no_dot (cs : List Char) (h : '.' ∉ cs) :
    goSplitList cs = [cs] := by
  induction cs with
  | nil => rfl
  | cons c cs ih =>
      simp only [List.mem_cons, not_or] at h
      have hc : ¬c = '.' := fun hcc => h.1 hcc.symm
      simp [goSplitList, ih h.2, hc]

/-- The first segment of any dot-delimited field path is dot-free. -/
theorem goBaseField_no_dot (f : String) : '.' ∉ (goBaseField f).data := by
  unfold goBaseField goSplitDot
  cases h : goSplitList f.data with
  | nil => exact absurd h (goSplitList_ne_nil f.data)
  | cons p rest =>
      simp only [List.map_cons, List.headD_cons]
      exact goSplitList_no_dot f.data p (h ▸ List.mem_cons_self p rest)

/-- Taking the first path segment is idempotent. -/
theorem goBaseField_idem (f : String) : goBaseField (goBaseField f) = goBaseField f := by
  show (goSplitDot (goBaseField f)).headD "" = goBaseField f
  unfold goSplitDot
  rw [goSplitList_of_no_dot _ (goBaseField_no_dot f)]
  simp [string_mk_data]

/-- Dropping a predicate that holds of every element drops the whole list. -/
theorem dropWhile_eq_nil_of_all (l : List Char) (h : ∀ c ∈ l, goIsSpace c) :
    l.dropWhile goIsSpace = [] := by
  induction l with
  | nil => rfl
  | cons c cs ih =>
      simp only [List.mem_cons] at h
      simp [List.dropWhile, h c (Or.inl rfl), ih (fun x hx => h x (Or.inr hx))]

/-- `strings.TrimSpace` of an all-whitespace string is empty. -/
theorem goTrimSpace_of_all_space (s : String) (h : ∀ c ∈ s.data, goIsSpace c) :
    goTrimSpace s = "" := by
  unfold goTrimSpace
  rw [dropWhile_eq_nil_of_all s.data h]
  rfl

/-! ### Claim theorems -/

/-- Claim C2, counterexample to the claim as stated: on the unparseable
input `not json`, `ValidateBytes` does return a successful call with one
`format` diagnostic embedding the parse detail — but its field is the
literal string `root`, not the empty string the claim requires. -/
theorem validateBytes_parse_failure_field_is_root_literal :
    ValidateBytes vA parseFailNotJson engineOk "not json"
      = Except.ok
          { valid := false
            errors := [{ field := "root"
                         message := "JSON inválido: invalid character o in literal null"
                         value := none
                         constraint := "format"
                         context := "" }] }
    ∧ ("root" : String) ≠ "" := by
  exact ⟨rfl, by decide⟩

/-- Claim C2 (amended): for every non-empty input on which the JSON
parser fails, `ValidateBytes` returns successfully with `valid = false`
and exactly one diagnostic whose field is the literal string `root`
(not the empty string), whose constraint is `format`, and whose message
embeds the parse-failure detail; `ValidateString` forwards to
`ValidateBytes` unchanged. -/
theorem validateBytes_parse_failure_diagnostic (v : Validator)
    (parse : String → Except String Unit)
    (engine : String → Except String (List RawViolation))
    (s e : String) (hne : s ≠ "") (hp : parse s = Except.error e) :
    ValidateBytes v parse engine s
      = Except.ok
          { valid := false
            errors := [{ field := "root"
                         message := "JSON inválido: " ++ e
                         value := none
                         constraint := "format"
                         context := "" }] }
    ∧ ValidateString v parse engine s = ValidateBytes v parse engine s := by
  constructor
  · unfold ValidateBytes
    rw [if_neg hne, hp]
  · rfl

/-- Witness for `validateBytes_parse_failure_diagnostic` at the spec
scenario input `not json`. -/
theorem validateBytes_parse_failure_diagnostic_witness :
    ValidateBytes vA parseFailNotJson engineOk "not json"
      = Except.ok
          { valid := false
            errors := [{ field := "root"
                         message := "JSON inválido: invalid character o in literal null"
                         value := none
                         constraint := "format"
                         context := "" }] }
    ∧ ValidateString vA parseFailNotJson engineOk "not json"
        = ValidateBytes vA parseFailNotJson engineOk "not json" :=
  validateBytes_parse_failure_diagnostic vA parseFailNotJson engineOk
    "not json" "invalid character o in literal null" (by decide) rfl

/-- Claim C3, counterexample to the claim as stated: the whitespace-only
document `" "` is non-empty, so `ValidateBytes` passes the length check,
the JSON parse fails, and the call returns a `ValidationResult`
successfully instead of failing with an operational error. -/
theorem validateBytes_whitespace_returns_result :
    ValidateBytes vA parseFailEOF engineOk " "
      = Except.ok
          { valid := false
            errors := [{ field := "root"
                         message := "JSON inválido: unexpected end of JSON input"
                         value := none
                         constraint := "format"
                         context := "" }] }
    ∧ (∀ c ∈ (" " : String).data, goIsSpace c) := by
  exact ⟨rfl, by decide⟩

/-- Claim C3 (amended): for whitespace-only input, the schema
constructors fail with an operational error (`NewFromString` by the
trim check; `NewFromBytes` by the length check when empty, else by the
schema-parse failure), and the validation entry points fail with an
operational error exactly when the input is empty — a non-empty
whitespace-only document instead yields a successful call carrying a
`valid = false` result with the single malformed-JSON diagnostic. -/
theorem empty_whitespace_input_handling
    (parseObj : String → Except String (List (String × Json)))
    (v : Validator) (parse : String → Except String Unit)
    (engine : String → Except String (List RawViolation))
    (s : String) (hs : ∀ c ∈ s.data, goIsSpace c) :
    (∃ e, NewFromString parseObj s = Except.error e)
    ∧ ((s = "" ∨ ∃ pe, parseObj s = Except.error pe) →
        ∃ e, NewFromBytes parseObj s = Except.error e)
    ∧ ValidateBytes v parse engine "" = Except.error "dados JSON não podem estar vazios"
    ∧ ValidateString v parse engine "" = Except.error "dados JSON não podem estar vazios"
    ∧ (∀ pe, s ≠ "" → parse s = Except.error pe →
        ValidateBytes v parse engine s
          = Except.ok
              { valid := false
                errors := [{ field := "root"
                             message := "JSON inválido: " ++ pe
                             value := none
                             constraint := "format"
                             context := "" }] }) := by
  refine ⟨?_, ?_, rfl, rfl, ?_⟩
  · refine ⟨"schema não pode estar vazio", ?_⟩
    unfold NewFromString
    rw [if_pos (goTrimSpace_of_all_space s hs)]
  · intro hfail
    by_cases hse : s = ""
    · subst hse
      exact ⟨"schema bytes não podem estar vazios", rfl⟩
    · rcases hfail with hse' | ⟨pe, hpe⟩
      · exact absurd hse' hse
      · refine ⟨"schema JSON inválido: " ++ pe, ?_⟩
        unfold NewFromBytes
        rw [if_neg hse, hpe]
  · intro pe hne hp
    unfold ValidateBytes
    rw [if_neg hne, hp]

/-- Witness for `empty_whitespace_input_handling` at the whitespace-only
input `" "`. -/
theorem empty_whitespace_input_handling_witness :
    (∃ e, NewFromString parseObjFail " " = Except.error e)
    ∧ (∃ e, NewFromBytes parseObjFail " " = Except.error e)
    ∧ ValidateBytes vA parseFailEOF engineOk ""
        = Except.error "dados JSON não podem estar vazios"
    ∧ ValidateBytes vA parseFailEOF engineOk " "
        = Except.ok
            { valid := false
              errors := [{ field := "root"
                           message := "JSON inválido: unexpected end of JSON input"
                           value := none
                           constraint := "format"
                           context := "" }] } :=
  have h := empty_whitespace_input_handling parseObjFail vA parseFailEOF engineOk " "
    (by decide)
  ⟨h.1, h.2.1 (Or.inr ⟨"unexpected end of JSON input", rfl⟩), h.2.2.1,
    h.2.2.2.2 "unexpected end of JSON input" (by decide) rfl⟩

/-- Claim C8: validating the same bytes twice against the same Validator
is deterministic — the two calls are equal outright, two successful
results agree field-for-field (same validity flag, same ordered
diagnostic list), and two operational errors carry the same message.
(The parser and engine collaborators are deterministic functions, as
`encoding/json` and `gojsonschema` are for a fixed schema.) -/
theorem validateBytes_idempotent (v : Validator)
    (parse : String → Except String Unit)
    (engine : String → Except String (List RawViolation)) (data : String) :
    ValidateBytes v parse engine data = ValidateBytes v parse engine data
    ∧ (∀ r1 r2, ValidateBytes v parse engine data = Except.ok r1 →
        ValidateBytes v parse engine data = Except.ok r2 →
        r1.valid = r2.valid ∧ r1.errors = r2.errors)
    ∧ (∀ e1 e2, ValidateBytes v parse engine data = Except.error e1 →
        ValidateBytes v parse engine data = Except.error e2 → e1 = e2) := by
  refine ⟨rfl, ?_, ?_⟩
  · intro r1 r2 h1 h2
    rw [h1] at h2
    injection h2 with h
    subst h
    exact ⟨rfl, rfl⟩
  · intro e1 e2 h1 h2
    rw [h1] at h2
    injection h2

/-- Witness for `validateBytes_idempotent` at a concrete valid document. -/
theorem validateBytes_idempotent_witness :
    (true = true ∧ ([] : List ValidationError) = []) :=
  (validateBytes_idempotent vA parseOkU engineOk "x").2.1
    { valid := true, errors := [] } { valid := true, errors := [] } rfl rfl

/-- Claim C4: the middleware's dispatch — an exempt method passes
through to the downstream handler regardless of the validation outcome;
for a non-exempt method an operational error yields an `http.Error` with
status 500, an invalid result invokes the error responder (the default
responder answering 400 with the structured payload), a valid result
passes through, and a pass-through on a non-exempt method happens only
for a valid result. -/
theorem middleware_dispatch_states (skipMethods : List String) (method : String)
    (val : Except String ValidationResult) :
    ((effectiveSkipMethods skipMethods).contains method = true →
        MiddlewareWithConfig skipMethods method val = MiddlewareOutcome.passThrough)
    ∧ ((effectiveSkipMethods skipMethods).contains method = false →
        (∀ e, val = Except.error e →
            MiddlewareWithConfig skipMethods method val
              = MiddlewareOutcome.errored 500 ("Erro interno de validação: " ++ e))
        ∧ (∀ r, val = Except.ok r → r.valid = false →
            MiddlewareWithConfig skipMethods method val = MiddlewareOutcome.rejected r
            ∧ defaultErrorHandler r
                = (400, { error := "Dados de entrada inválidos", details := r.errors }))
        ∧ (∀ r, val = Except.ok r → r.valid = true →
            MiddlewareWithConfig skipMethods method val = MiddlewareOutcome.passThrough)
        ∧ (MiddlewareWithConfig skipMethods method val = MiddlewareOutcome.passThrough →
            ∃ r, val = Except.ok r ∧ r.valid = true)) := by
  constructor
  · intro h
    have hm : method ∈ effectiveSkipMethods skipMethods := by simpa using h
    simp [MiddlewareWithConfig, hm]
  · intro h
    have hm : method ∉ effectiveSkipMethods skipMethods := by simpa using h
    refine ⟨?_, ?_, ?_, ?_⟩
    · intro e he
      subst he
      simp [MiddlewareWithConfig, hm]
    · intro r hr hv
      subst hr
      exact ⟨by simp [MiddlewareWithConfig, hm, hv], rfl⟩
    · intro r hr hv
      subst hr
      simp [MiddlewareWithConfig, hm, hv]
    · intro hp
      cases val with
      | error e => simp [MiddlewareWithConfig, hm] at hp
      | ok r =>
          refine ⟨r, rfl, ?_⟩
          cases hvb : r.valid with
          | true => rfl
          | false =>
              exfalso
              simp [MiddlewareWithConfig, hm, hvb] at hp

/-- Witness for `middleware_dispatch_states`: with the default exemption
set, a non-exempt POST with a valid result passes through, and a GET
passes through even when validation would have errored. -/
theorem middleware_dispatch_states_witness :
    MiddlewareWithConfig [] "POST" (Except.ok { valid := true, errors := [] })
      = MiddlewareOutcome.passThrough
    ∧ MiddlewareWithConfig [] "GET" (Except.error "boom")
      = MiddlewareOutcome.passThrough :=
  ⟨((middleware_dispatch_states [] "POST"
        (Except.ok { valid := true, errors := [] })).2 (by decide)).2.2.1
      { valid := true, errors := [] } rfl rfl,
    (middleware_dispatch_states [] "GET" (Except.error "boom")).1 (by decide)⟩

/-- Claim C10: an empty (or nil) `SkipMethods` list is silently replaced
by the default exemption set, and consequently every middleware
configuration leaves at least one method that always passes through
without validation. -/
theorem middleware_empty_skip_defaults (skipMethods : List String) :
    (skipMethods = [] →
        effectiveSkipMethods skipMethods = ["GET", "DELETE", "HEAD", "OPTIONS"])
    ∧ ∃ m, ∀ val, MiddlewareWithConfig skipMethods m val
        = MiddlewareOutcome.passThrough := by
  constructor
  · intro h
    subst h
    rfl
  · cases hs : skipMethods with
    | nil =>
        refine ⟨"GET", fun val => ?_⟩
        simp [MiddlewareWithConfig, effectiveSkipMethods]
    | cons a rest =>
        refine ⟨a, fun val => ?_⟩
        simp [MiddlewareWithConfig, effectiveSkipMethods]

/-- Witness for `middleware_empty_skip_defaults` at the explicitly
supplied empty list. -/
theorem middleware_empty_skip_defaults_witness :
    effectiveSkipMethods [] = ["GET", "DELETE", "HEAD", "OPTIONS"]
    ∧ ∃ m, ∀ val, MiddlewareWithConfig [] m val = MiddlewareOutcome.passThrough :=
  ⟨(middleware_empty_skip_defaults []).1 rfl, (middleware_empty_skip_defaults []).2⟩

/-- Claim C9: registry operations — `Add` on an existing key overwrites
(last writer wins), `Get` returns a found/not-found pair whose flag
agrees with presence, `Remove` of an absent key is a no-op, and `Get`
after `Add` finds the added validator. -/
theorem multiValidator_registry_ops (mv : MultiValidator) (k : String)
    (v v1 v2 : Validator) :
    MultiValidator.Get (MultiValidator.Add (MultiValidator.Add mv k v1) k v2) k
        = (some v2, true)
    ∧ (MultiValidator.Get mv k).2 = (MultiValidator.Get mv k).1.isSome
    ∧ (assocLookup mv.validators k = none → MultiValidator.Remove mv k = mv)
    ∧ MultiValidator.Get (MultiValidator.Add mv k v) k = (some v, true) := by
  refine ⟨?_, ?_, ?_, ?_⟩
  · unfold MultiValidator.Get MultiValidator.Add
    rw [assocLookup_insert]
  · unfold MultiValidator.Get
    cases assocLookup mv.validators k <;> rfl
  · intro h
    unfold MultiValidator.Remove
    cases mv with
    | mk validators =>
        simp only at h
        simp [filter_ne_of_lookup_none validators k h]
  · unfold MultiValidator.Get MultiValidator.Add
    rw [assocLookup_insert]

/-- Witness for `multiValidator_registry_ops` on a concrete registry. -/
theorem multiValidator_registry_ops_witness :
    MultiValidator.Get
        (MultiValidator.Add (MultiValidator.Add NewMultiValidator "user" vA) "user" vB)
        "user"
      = (some vB, true)
    ∧ MultiValidator.Remove NewMultiValidator "user" = NewMultiValidator :=
  ⟨(multiValidator_registry_ops NewMultiValidator "user" vB vA vB).1,
    (multiValidator_registry_ops NewMultiValidator "user" vA vA vB).2.2.1 rfl⟩

/-- Claim C5: after `ValidateRequest` returns on a request with an
unconsumed body, the request carries a fresh stream over exactly the
bytes that were read — reading it again yields the original body — and
the outcome (result or error) is that of `ValidateBytes` on those
bytes. -/
theorem validateRequest_body_replayable (v : Validator)
    (parse : String → Except String Unit)
    (engine : String → Except String (List RawViolation))
    (req : GoRequest) (stream : BodyStream)
    (hb : req.body = some stream) (hpos : stream.pos = 0) :
    (ValidateRequest v parse engine (some req)).1
        = some { req with body := some { contents := stream.contents, pos := 0 } }
    ∧ (readAllStream { contents := stream.contents, pos := 0 }).1 = stream.contents
    ∧ (ValidateRequest v parse engine (some req)).2
        = ValidateBytes v parse engine stream.contents := by
  obtain ⟨method, body⟩ := req
  simp only at hb
  subst hb
  refine ⟨?_, ?_, ?_⟩ <;>
    simp [ValidateRequest, readAllStream, hpos, string_mk_data]

/-- Witness for `validateRequest_body_replayable` on a concrete POST
request with body `abc`. -/
theorem validateRequest_body_replayable_witness :
    (ValidateRequest vA parseOkU engineOk
        (some { method := "POST", body := some { contents := "abc", pos := 0 } })).1
      = some { method := "POST", body := some { contents := "abc", pos := 0 } }
    ∧ (readAllStream { contents := "abc", pos := 0 }).1 = "abc" :=
  have h := validateRequest_body_replayable vA parseOkU engineOk
    { method := "POST", body := some { contents := "abc", pos := 0 } }
    { contents := "abc", pos := 0 } rfl rfl
  ⟨h.1, h.2.1⟩

/-- Claim C6: overlay lookup precedence for a top-level field — an
exact constraint-keyword entry wins over the wildcard entry, the
wildcard entry applies to any other constraint, and a field absent from
the table falls back to the engine's default description. -/
theorem overlay_precedence (v : Validator) (field : String) (err : RawViolation)
    (fm : List (String × String)) (specMsg wildMsg : String)
    (hbase : goBaseField field = field) :
    (assocLookup v.customErrors field = some fm →
        ((assocLookup fm err.etype = some specMsg →
            getCustomErrorMessage v field err = specMsg)
         ∧ (assocLookup fm err.etype = none → assocLookup fm "_" = some wildMsg →
            getCustomErrorMessage v field err = wildMsg)))
    ∧ (assocLookup v.customErrors field = none →
        getCustomErrorMessage v field err = err.description) := by
  constructor
  · intro hf
    constructor
    · intro hs
      simp only [getCustomErrorMessage, hbase, hf, hs]
    · intro hn hw
      simp only [getCustomErrorMessage, hbase, hf, hn, hw]
  · intro hn
    simp only [getCustomErrorMessage, hbase, hn]

/-- Witness for `overlay_precedence` on `vOverlay` (both a `format`
entry and a wildcard entry for `email`) and on the empty table. -/
theorem overlay_precedence_witness :
    getCustomErrorMessage vOverlay "email" emailViolation = "bad email"
    ∧ getCustomErrorMessage vOverlay "email" emailLenViolation = "email is wrong"
    ∧ getCustomErrorMessage vA "email" emailViolation = emailViolation.description :=
  ⟨((overlay_precedence vOverlay "email" emailViolation
        [("format", "bad email"), ("_", "email is wrong")] "bad email" "email is wrong"
        rfl).1 rfl).1 rfl,
    ((overlay_precedence vOverlay "email" emailLenViolation
        [("format", "bad email"), ("_", "email is wrong")] "bad email" "email is wrong"
        rfl).1 rfl).2 rfl rfl,
    (overlay_precedence vA "email" emailViolation [] "x" "y" rfl).2 rfl⟩

/-- Claim C7: for a dotted (nested) field path, overlay lookup keys on
the first path segment only — that segment is dot-free, so it can never
equal a nested-path key; the message is the same as if the field were
just its first segment; and when the first segment is absent from the
table the engine default is used. -/
theorem overlay_first_segment_only (v : Validator) (field : String)
    (err : RawViolation) (hdotted : 2 ≤ (goSplitDot field).length) :
    ('.' ∉ (goBaseField field).data)
    ∧ (∀ fullPath : String, '.' ∈ fullPath.data → goBaseField field ≠ fullPath)
    ∧ getCustomErrorMessage v field err
        = getCustomErrorMessage v (goBaseField field) err
    ∧ (assocLookup v.customErrors (goBaseField field) = none →
        getCustomErrorMessage v field err = err.description) := by
  refine ⟨goBaseField_no_dot field, ?_, ?_, ?_⟩
  · intro fp hfp hEq
    exact (goBaseField_no_dot field) (hEq ▸ hfp)
  · simp only [getCustomErrorMessage, goBaseField_idem]
  · intro hn
    simp only [getCustomErrorMessage, hn]

/-- Witness for `overlay_first_segment_only` at the nested field
`address.zipCode` against a table keyed by that full nested path: the
entry is never consulted and the default description is returned. -/
theorem overlay_first_segment_only_witness :
    goBaseField "address.zipCode" ≠ "address.zipCode"
    ∧ getCustomErrorMessage vNested "address.zipCode" zipViolation
        = zipViolation.description :=
  have h := overlay_first_segment_only vNested "address.zipCode" zipViolation
    (by decide)
  ⟨h.2.1 "address.zipCode" (by decide), h.2.2.2 rfl⟩

/-- Claim C1 (the code contradicts the README and the spec):
`extractErrorMessages` only descends into `schema["items"]`, so the
README's documented top-level `properties.email.errorMessage` block is
ignored — the overlay table built from that schema is empty, a
`Validator` constructed from those schema bytes carries no custom
messages, and a `format` violation on `email` is reported with the
engine default description instead of `bad email`. -/
theorem extract_ignores_top_level_properties :
    extractErrorMessages schemaTopLevelEM = []
    ∧ NewFromBytes parseObjSchemaTopLevel "schema-bytes"
        = Except.ok { schemaSource := "schema-bytes", customErrors := [] }
    ∧ (buildValidationResult
          { schemaSource := "schema-bytes"
            customErrors := extractErrorMessages schemaTopLevelEM }
          [emailViolation]).errors.map (fun d => d.message)
        = ["does not match format email"]
    ∧ ("does not match format email" : String) ≠ "bad email" := by
  refine ⟨rfl, rfl, rfl, by decide⟩

end Valid
